import Mathlib

/-!
Verification of the godx storage-client upload/repair/download engine.

The Go sources are shallowly embedded: Go `int` fields become `Int`,
Go `uint64` fields become `Nat`, byte slices become `Bytes := List Nat`
(with nil-able slices as `Option Bytes`), and stateful methods become
pure functions from the old state (plus explicit environment inputs for
disk and network effects) to the new state together with any quantities
the method hands to its collaborators (for example the number of bytes
passed to `memoryManager.Return`).  Go `float64` arithmetic on small
integers and the repair threshold is modelled over `ℚ`, which is exact
for the values that occur.
-/

namespace Godx

/-- Byte slices are modelled as lists of byte values. -/
abbrev Bytes := List Nat

/-- Runtime state of struct `unfinishedUploadSegment` (upload/repair engine).
Fields that no modelled operation consults (the mutex, the file-entry
handle, the thread id, the host set and the standby worker list) are
omitted; the remaining fields are in the source order. -/
structure unfinishedUploadSegment where
  index : Nat
  length : Nat
  memoryNeeded : Nat
  memoryReleased : Nat
  minimumPieces : Int
  offset : Int
  piecesNeeded : Int
  stuck : Bool
  stuckRepair : Bool
  logicalSegmentData : Option Bytes
  physicalSegmentData : List (Option Bytes)
  pieceUsage : List Bool
  piecesCompleted : Int
  piecesRegistered : Int
  released : Bool
  workersRemaining : Int
  deriving DecidableEq, Repr

/-- Method `SegmentComplete` of `unfinishedUploadSegment`: the segment is
complete when the whole segment uploaded successfully
(`piecesCompleted == piecesNeeded && piecesRegistered == 0`) or when no
workers and no registrations remain
(`workersRemaining == 0 && piecesRegistered == 0`). -/
def SegmentComplete (uc : unfinishedUploadSegment) : Bool :=
  if uc.piecesCompleted = uc.piecesNeeded ∧ uc.piecesRegistered = 0 then true
  else if uc.workersRemaining = 0 ∧ uc.piecesRegistered = 0 then true
  else false

/-- Segment state with `piecesCompleted = 3` strictly above
`piecesNeeded = 2`, no registered pieces and one worker remaining.
Field order: index, length, memoryNeeded, memoryReleased, minimumPieces,
offset, piecesNeeded, stuck, stuckRepair, logicalSegmentData,
physicalSegmentData, pieceUsage, piecesCompleted, piecesRegistered,
released, workersRemaining. -/
def segOverComplete : unfinishedUploadSegment :=
  ⟨0, 0, 0, 0, 0, 0, 2, false, false, none, [], [], 3, 0, false, 1⟩

/-- Repair success criterion of `managedUpdateUploadSegmentStuckStatus`:
`(1 - RemoteRepairDownloadThreshold)*float64(piecesNeeded) <= float64(piecesCompleted)`.
The threshold is kept as a parameter (its value is declared outside the
visible sources); the float64 arithmetic is modelled exactly over `ℚ`. -/
def successfulRepair (threshold : ℚ) (piecesNeeded piecesCompleted : Int) : Bool :=
  decide ((1 - threshold) * (piecesNeeded : ℚ) ≤ (piecesCompleted : ℚ))

/-- Renter-error check of `managedUpdateUploadSegmentStuckStatus`: true when
the stop channel fired (shutdown) or the client reports offline. -/
def renterError (shuttingDown online : Bool) : Bool := shuttingDown || !online

/-- Method `managedUpdateUploadSegmentStuckStatus`: returns the Boolean that
the method passes to `SetStuckByIndex`, or `none` when the method returns
early (repair unsuccessful while the renter is shutting down or offline)
without touching the stuck flag. -/
def managedUpdateUploadSegmentStuckStatus (threshold : ℚ) (uc : unfinishedUploadSegment)
    (shuttingDown online : Bool) : Option Bool :=
  let sr := successfulRepair threshold uc.piecesNeeded uc.piecesCompleted
  if !sr && renterError shuttingDown online then none
  else some (!sr)

/-- Segment state with `piecesNeeded = 4` and `piecesCompleted = 3`, used to
evaluate the stuck-status update at the threshold boundary. -/
def segStuckCheck : unfinishedUploadSegment :=
  ⟨0, 0, 0, 0, 0, 0, 4, false, false, none, [], [], 3, 0, false, 0⟩

/-- Go conversion `int(x)` applied to a nonnegative-or-negative float64,
truncating toward zero; the float value is modelled as a rational. -/
def goInt (q : ℚ) : Int := Int.tdiv q.num (q.den : Int)

/-- Result of `managedFetchLogicalSegmentData`: either the call into
`managedDownloadLogicalSegmentData` (a remote repair download), one of the
three error returns, or logical data successfully read from disk. -/
inductive FetchOutcome
  | remoteDownload
  | errNotAvailable
  | errOpenFailed
  | errReadFailed
  | localData (data : Bytes)
  deriving DecidableEq, Repr

/-- Disk behaviour observed by one run of `managedFetchLogicalSegmentData`:
whether `os.Open` on the local path fails, whether reading the section
fails with an error other than EOF, and the bytes read otherwise. -/
structure DiskEnv where
  openFails : Bool
  readFails : Bool
  readData : Bytes
  deriving DecidableEq, Repr

/-- Method `managedFetchLogicalSegmentData`: decides between a repair
download, an error return, and reading the logical data from the local
file. `download` is true when more than the threshold-fraction of the
parity pieces is missing:
`piecesCompleted + int(float64(piecesNeeded-minimumPieces)*RemoteRepairDownloadThreshold) < piecesNeeded`. -/
def managedFetchLogicalSegmentData (threshold : ℚ) (localPath : String) (env : DiskEnv)
    (seg : unfinishedUploadSegment) : FetchOutcome :=
  let numParityPieces : ℚ := ((seg.piecesNeeded - seg.minimumPieces : Int) : ℚ)
  let minMissingPiecesToDownload : Int := goInt (numParityPieces * threshold)
  let download := seg.piecesCompleted + minMissingPiecesToDownload < seg.piecesNeeded
  if localPath = "" ∧ download then .remoteDownload
  else if localPath = "" then .errNotAvailable
  else if env.openFails ∧ download then .remoteDownload
  else if env.openFails then .errOpenFailed
  else if env.readFails ∧ download then .remoteDownload
  else if env.readFails then .errReadFailed
  else .localData env.readData

/-- Disk environment in which `os.Open` fails. -/
def diskOpenFailEnv : DiskEnv := ⟨true, false, []⟩

/-- Segment state missing all pieces of a file with `MinSectors =
NumSectors` (no parity): piecesNeeded = minimumPieces = 2,
piecesCompleted = 0, so a repair download is warranted. -/
def segAllMissing : unfinishedUploadSegment :=
  ⟨0, 0, 0, 0, 2, 0, 2, false, false, none, [], [], 0, 0, false, 0⟩

/-- Constant `storage.SectorSize`. Modelled from the spec: the constant's
definition is not under src/; the spec fixes sectors at 4 MiB. -/
def SectorSize : Nat := 4194304

/-- Loop at the top of `threadedFetchAndRepairSegment` computing
`pieceCompletedMemory`: one `storage.SectorSize` for every true entry of
`pieceUsage`. -/
def pieceCompletedMemory (pieceUsage : List Bool) : Nat :=
  pieceUsage.foldl (fun acc u => if u then acc + SectorSize else acc) 0

/-- Encryption loop of `threadedFetchAndRepairSegment`: iterating over the
piece-usage indices, pieces already in use are dropped (set to nil), the
others are encrypted, and on an encryption error the plaintext piece is
kept (the error is only logged). Physical pieces beyond the piece-usage
length are left as produced by the erasure coder. -/
def encryptPieces (encrypt : Bytes → Option Bytes) :
    List Bool → List Bytes → List (Option Bytes)
  | [], rest => rest.map some
  | _ :: _, [] => []
  | u :: us, d :: ds =>
    (if u then none
     else match encrypt d with
       | some c => some c
       | none => some d) :: encryptPieces encrypt us ds

/-- Environment of one `threadedFetchAndRepairSegment` run: the file's
sector size and erasure parameters, the outcome of the logical-data fetch
(`none` = fetch error), the erasure encoder, the cipher, and the size of
the worker pool snapshot taken by `managedDistributeSegmentToWorkers`. -/
structure RepairEnv where
  fileSectorSize : Nat
  minSectors : Nat
  fetchResult : Option Bytes
  encodeResult : Bytes → Option (List Bytes)
  encryptResult : Bytes → Option Bytes
  workerCount : Nat

/-- Body of `threadedFetchAndRepairSegment` up to its return (the deferred
`managedCleanUpUploadSegment` is modelled separately): the updated segment
state together with the total number of bytes the body hands to
`memoryManager.Return`. `erasureCodingMemory` is the file sector size
times `MinSectors`; it and `pieceCompletedMemory` are released on the
fetch-failure and encode-failure paths, and gradually on the success
path. -/
def threadedFetchAndRepairSegmentBody (env : RepairEnv) (uc : unfinishedUploadSegment) :
    unfinishedUploadSegment × Nat :=
  let erasureCodingMemory := env.fileSectorSize * env.minSectors
  let pcm := pieceCompletedMemory uc.pieceUsage
  match env.fetchResult with
  | none =>
    ({ uc with
       logicalSegmentData := none
       workersRemaining := 0
       memoryReleased := uc.memoryReleased + (erasureCodingMemory + pcm) },
     erasureCodingMemory + pcm)
  | some data =>
    match env.encodeResult data with
    | none =>
      ({ uc with
         logicalSegmentData := none
         physicalSegmentData := []
         workersRemaining := 0
         memoryReleased := uc.memoryReleased + erasureCodingMemory + pcm },
       erasureCodingMemory + pcm)
    | some pieces =>
      if pieces.length < uc.pieceUsage.length then
        ({ uc with
           logicalSegmentData := none
           physicalSegmentData := pieces.map some
           memoryReleased := uc.memoryReleased + erasureCodingMemory },
         erasureCodingMemory)
      else
        ({ uc with
           logicalSegmentData := none
           physicalSegmentData := encryptPieces env.encryptResult uc.pieceUsage pieces
           memoryReleased := uc.memoryReleased + erasureCodingMemory + pcm
           workersRemaining := uc.workersRemaining + env.workerCount },
         erasureCodingMemory + pcm)

/-- Repair environment whose logical-data fetch fails. -/
def envFetchFail : RepairEnv :=
  ⟨100, 2, none, fun _ => none, fun b => some b, 3⟩

/-- Segment state with two used pieces out of three and two workers
remaining, for evaluating the fetch-failure path. -/
def segFetchFail : unfinishedUploadSegment :=
  ⟨0, 0, 0, 7, 1, 0, 3, false, false, some [5], [some [1], none, none],
    [true, false, true], 1, 0, false, 2⟩

/-- Release loop at the top of `managedCleanUpUploadSegment`, over the
piece-usage flags zipped with the physical piece slots (the source indexes
both arrays with the same `i`), carrying the `piecesAvailable` and
`memoryReleased` counters. A used piece is skipped; an unused piece is
released (slot set to nil, usage set to true, one `storage.SectorSize`
added to the released memory) once `piecesAvailable` has reached
`workersRemaining`, and is otherwise counted as available. -/
def cleanUpScan (workersRemaining : Int) :
    List (Bool × Option Bytes) → Int → Nat → List (Bool × Option Bytes) × Int × Nat
  | [], piecesAvailable, memoryReleased => ([], piecesAvailable, memoryReleased)
  | (u, d) :: rest, piecesAvailable, memoryReleased =>
    if u then
      let r := cleanUpScan workersRemaining rest piecesAvailable memoryReleased
      ((u, d) :: r.1, r.2)
    else if workersRemaining ≤ piecesAvailable then
      let r := cleanUpScan workersRemaining rest piecesAvailable (memoryReleased + SectorSize)
      ((true, none) :: r.1, r.2)
    else
      let r := cleanUpScan workersRemaining rest (piecesAvailable + 1) memoryReleased
      ((u, d) :: r.1, r.2)

/-- Method `managedCleanUpUploadSegment`: runs the release pass, marks the
segment released when it is complete, adds the pass's released memory to
the segment's `memoryReleased`, and hands that amount to
`memoryManager.Return` (a zero amount skips the call). Returns the new
segment state and the number of bytes returned to the manager. -/
def managedCleanUpUploadSegment (uc : unfinishedUploadSegment) :
    unfinishedUploadSegment × Nat :=
  let scan := cleanUpScan uc.workersRemaining (uc.pieceUsage.zip uc.physicalSegmentData) 0 0
  ({ uc with
     pieceUsage := scan.1.map Prod.fst
     physicalSegmentData := scan.1.map Prod.snd
     released := uc.released || SegmentComplete uc
     memoryReleased := uc.memoryReleased + scan.2.2 },
   scan.2.2)

/-- Value of the `piecesAvailable` counter after the release pass has
scanned the first `i` pieces of the segment. -/
def piecesAvailableAt (uc : unfinishedUploadSegment) (i : Nat) : Int :=
  (cleanUpScan uc.workersRemaining ((uc.pieceUsage.zip uc.physicalSegmentData).take i) 0 0).2.1

/-- Value of the `memoryReleased` counter after the release pass has
scanned the first `i` pieces of the segment. -/
def memoryReleasedAt (uc : unfinishedUploadSegment) (i : Nat) : Nat :=
  (cleanUpScan uc.workersRemaining ((uc.pieceUsage.zip uc.physicalSegmentData).take i) 0 0).2.2

/-- Number of piece slots a release pass claims: positions whose usage flag
was false before the pass and true after it. -/
def newlyClaimedCount (orig final : List (Bool × Option Bytes)) : Nat :=
  (orig.zip final).countP (fun p => !p.1.1 && p.2.1)

/-- Segment for evaluating the cleanup pass: one worker remaining and
pieces [used, free, free], so the pass counts the first free piece as
available and releases the second. -/
def segCleanup : unfinishedUploadSegment :=
  ⟨0, 0, 0, 0, 0, 0, 3, false, false, none, [some [1], some [2], some [3]],
    [true, false, false], 0, 0, false, 1⟩

/-- Modelled from the spec: `SegmentIndexByOffset` of a DxFile snapshot is
not under src/; segments tile the file, so byte `offset` lies in segment
`offset / segmentSize` at inner offset `offset % segmentSize`. -/
def SegmentIndexByOffset (segmentSize offset : Nat) : Nat × Nat :=
  (offset / segmentSize, offset % segmentSize)

/-- The fetchOffset and fetchLength that `newDownload` assigns to the
unfinished download segment with index i, for a download of
`[offset, offset+length)` from a file with the given segment size:
the segment range is computed with `SegmentIndexByOffset`, the end index
is pulled back when the range ends exactly on a segment boundary, the
first segment starts at the inner start offset, and the last segment
(when the range does not end on a boundary) fetches only up to the inner
end offset. -/
def downloadFetchParams (segmentSize offset length i : Nat) : Nat × Nat :=
  let startIndex := (SegmentIndexByOffset segmentSize offset).1
  let startOffset := (SegmentIndexByOffset segmentSize offset).2
  let endIndexRaw := (SegmentIndexByOffset segmentSize (offset + length)).1
  let endOffset := (SegmentIndexByOffset segmentSize (offset + length)).2
  let endIndex := if 0 < endIndexRaw ∧ endOffset = 0 then endIndexRaw - 1 else endIndexRaw
  let fetchOffset := if i = startIndex then startOffset else 0
  let fetchLength := if i = endIndex ∧ endOffset ≠ 0 then endOffset - fetchOffset
                     else segmentSize - fetchOffset
  (fetchOffset, fetchLength)

/-- Download length used by `managedDownloadLogicalSegmentData` for a
repair download of an upload segment: the segment length, except that the
last segment of a file whose size is not a multiple of the segment length
downloads only `FileSize % length` bytes. -/
def repairDownloadLength (numSegments fileSize segIndex segLength : Nat) : Nat :=
  if segIndex = numSegments - 1 ∧ fileSize % segLength ≠ 0 then fileSize % segLength
  else segLength

namespace unit

/-- Decimal digit characters. -/
def isDigitChar (c : Char) : Bool := '0' ≤ c && c ≤ '9'

/-- ASCII lower-casing, as `strings.ToLower` acts on the characters that
occur in currency strings. -/
def goToLower (c : Char) : Char :=
  if 'A' ≤ c ∧ c ≤ 'Z' then Char.ofNat (c.toNat + 32) else c

/-- Modelled from the spec: helper `formatString` of the unit package is
not under src/; per its call-site comment it removes all the white spaces
and converts everything into lower case. -/
def formatString (s : List Char) : List Char :=
  (s.filter (fun c => !(c == ' '))).map goToLower

/-- Unit suffix "wei" as compared by ParseCurrency. -/
def weiChars : List Char := ['w', 'e', 'i']

/-- Unit suffix "kwei". -/
def kweiChars : List Char := ['k', 'w', 'e', 'i']

/-- Unit suffix "mwei". -/
def mweiChars : List Char := ['m', 'w', 'e', 'i']

/-- Unit suffix "gwei". -/
def gweiChars : List Char := ['g', 'w', 'e', 'i']

/-- Unit suffix "microether". -/
def microetherChars : List Char := ['m', 'i', 'c', 'r', 'o', 'e', 't', 'h', 'e', 'r']

/-- Unit suffix "milliether". -/
def millietherChars : List Char := ['m', 'i', 'l', 'l', 'i', 'e', 't', 'h', 'e', 'r']

/-- Unit suffix "ether". -/
def etherChars : List Char := ['e', 't', 'h', 'e', 'r']

/-- Unit display string "Gwei" as printed by FormatCurrency. -/
def gweiDisplay : List Char := ['G', 'w', 'e', 'i']

/-- Unit display string "Mwei" as printed by FormatCurrency. -/
def mweiDisplay : List Char := ['M', 'w', 'e', 'i']

/-- Unit display string "Kwei" as printed by FormatCurrency. -/
def kweiDisplay : List Char := ['K', 'w', 'e', 'i']

/-- Decimal digit character of d (for d < 10). -/
def digitChar (d : Nat) : Char := Char.ofNat (48 + d)

/-- Decimal digits of n, least significant first. -/
def toDigitsRev : Nat → List Char
  | 0 => []
  | n + 1 => digitChar ((n + 1) % 10) :: toDigitsRev ((n + 1) / 10)
decreasing_by exact Nat.div_lt_self (Nat.succ_pos n) (by omega)

/-- Decimal representation of a nonnegative big integer as printed by
`fmt.Sprintf("%v", fund)`. -/
def numChars (n : Nat) : List Char :=
  if n = 0 then ['0'] else (toDigitsRev n).reverse

/-- Value of a decimal digit character. -/
def digitVal (c : Char) : Option Nat :=
  if isDigitChar c then some (c.toNat - 48) else none

/-- Base-10 accumulation over a digit string; fails on a non-digit. -/
def parseDigitsAux : Nat → List Char → Option Nat
  | acc, [] => some acc
  | acc, c :: cs =>
    match digitVal c with
    | some d => parseDigitsAux (10 * acc + d) cs
    | none => none

/-- Modelled from the spec: the numeric part of a currency string is a
nonempty string of decimal digits, valued in base 10. -/
def parseDigits (s : List Char) : Option Nat :=
  if s.isEmpty then none else parseDigitsAux 0 s

/-- Modelled from the spec: helper `stringToBigInt(unit, str)` of the unit
package is not under src/; it strips the unit suffix from the already
formatted string, parses the remaining decimal digits, and scales by the
unit's multiplier from CurrencyIndexMap. -/
def stringToBigInt (mult : Nat) (uname s : List Char) : Option Nat :=
  (parseDigits (s.take (s.length - uname.length))).map (fun d => d * mult)

/-- Function `ParseCurrency`: formats the string, scans the units other
than wei and ether for a suffix match, then falls back to the wei and the
ether suffix, and fails otherwise. The Go source iterates the
CurrencyIndexMap map, whose order is unspecified; the five candidate
suffixes are mutually exclusive (theorem loopUnits_suffix_unique), so the
fixed order used here is faithful. Returns the parsed value in wei. -/
def ParseCurrency (s : List Char) : Option Nat :=
  let str := formatString s
  if kweiChars.isSuffixOf str then stringToBigInt 1000 kweiChars str
  else if mweiChars.isSuffixOf str then stringToBigInt 1000000 mweiChars str
  else if gweiChars.isSuffixOf str then stringToBigInt 1000000000 gweiChars str
  else if microetherChars.isSuffixOf str then
    stringToBigInt 1000000000000 microetherChars str
  else if millietherChars.isSuffixOf str then
    stringToBigInt 1000000000000000 millietherChars str
  else if weiChars.isSuffixOf str then stringToBigInt 1 weiChars str
  else if etherChars.isSuffixOf str then
    stringToBigInt 1000000000000000000 etherChars str
  else none

/-- Function `FormatCurrency` (the optional extra strings are appended
after the unit): a zero fund prints as wei; otherwise the value is
printed over the largest unit that divides it exactly, capitalising
Gwei, Mwei and Kwei. `DivNoRemaining` and `DivUint64` of common.BigInt
are not under src/ and are modelled from their names and call sites as
the exact-divisibility test and integer division. -/
def FormatCurrency (fund : Nat) (extra : List Char) : List Char :=
  if fund = 0 then numChars fund ++ [' '] ++ weiChars ++ extra
  else if fund % 1000000000000000000 = 0 then
    numChars (fund / 1000000000000000000) ++ [' '] ++ etherChars ++ extra
  else if fund % 1000000000000000 = 0 then
    numChars (fund / 1000000000000000) ++ [' '] ++ millietherChars ++ extra
  else if fund % 1000000000000 = 0 then
    numChars (fund / 1000000000000) ++ [' '] ++ microetherChars ++ extra
  else if fund % 1000000000 = 0 then
    numChars (fund / 1000000000) ++ [' '] ++ gweiDisplay ++ extra
  else if fund % 1000000 = 0 then
    numChars (fund / 1000000) ++ [' '] ++ mweiDisplay ++ extra
  else if fund % 1000 = 0 then
    numChars (fund / 1000) ++ [' '] ++ kweiDisplay ++ extra
  else numChars fund ++ [' '] ++ weiChars ++ extra

/-- Concrete accepted input for the round-trip witness. -/
def sampleCurrencyInput : List Char := ['5', ' ', 'G', 'w', 'e', 'i']

end unit

namespace dxdir

/-- Metadata stored in a DxDir (dxdir.go): uint64/uint32 fields as `Nat`,
the DxPath and RootPath as strings. Source field order. -/
structure Metadata where
  NumFiles : Nat
  TotalSize : Nat
  Health : Nat
  StuckHealth : Nat
  MinRedundancy : Nat
  TimeLastHealthCheck : Nat
  TimeModify : Nat
  NumStuckSegments : Nat
  DxPath : String
  RootPath : String
  deriving DecidableEq, Repr

/-- Method `UpdateMetadata` of DxDir (dxdir.go): the new metadata stored in
the DxDir, given the old stored metadata, the argument metadata, and the
current time (`time.Now().Unix()`, passed explicitly). The source copies
NumFiles, TotalSize, Health, StuckHealth, MinRedundancy,
TimeLastHealthCheck and NumStuckSegments from the argument, sets
TimeModify to the current time, and leaves DxPath and RootPath alone. -/
def UpdateMetadata (old arg : Metadata) (now : Nat) : Metadata :=
  { old with
    NumFiles := arg.NumFiles
    TotalSize := arg.TotalSize
    Health := arg.Health
    StuckHealth := arg.StuckHealth
    MinRedundancy := arg.MinRedundancy
    TimeLastHealthCheck := arg.TimeLastHealthCheck
    TimeModify := now
    NumStuckSegments := arg.NumStuckSegments }

/-- Name of the directory metadata file (`DirFileName = ".dxdir"` in
dxdir.go; dirset.go refers to it as `dirFileName`). -/
def dirFileName : String := ".dxdir"

/-- Go `path/filepath.Join` restricted to the use here: non-empty components
that are already clean paths, joined with the separator; `filepath.Clean`
is the identity on such inputs. -/
def filepathJoin (elems : List String) : String := String.intercalate "/" elems

/-- Method `dirFilePath` of DirSet (dirset.go): the on-disk location that
`exists` (hence `Exists`) stats for the directory metadata of `path`. The
source computes `filepath.Join(string(path), string(path), dirFileName)`:
it joins the path with itself, and the receiver's root directory (kept
here as the first parameter) is not consulted. -/
def DirSet.dirFilePath (rootDir path : String) : String :=
  filepathJoin [path, path, dirFileName]

/-- File location where `New(dxPath, rootPath, wal)` (dxdir.go) creates the
metadata file: `rootPath.Join(dxPath, DirFileName)`. -/
def newDxDirFilePath (rootPath dxPath : String) : String :=
  filepathJoin [rootPath, dxPath, dirFileName]

end dxdir

namespace memorymanager

/-- Modelled from the spec: the memorymanager implementation is not under
src/ (only its tests are). A MemoryManager is a bounded semaphore over
bytes with an `available` budget, a `limit`, and an `underflow` recording
admissions beyond the budget (spec section 4.A). The waiter queues are
empty in every scenario modelled here. -/
structure MemoryManager where
  available : Nat
  limit : Nat
  underflow : Nat
  deriving DecidableEq, Repr

/-- Modelled from the spec: `New(limit, stopChan)` creates a manager with
the whole budget available and no underflow. -/
def New (limit : Nat) : MemoryManager := ⟨limit, limit, 0⟩

/-- Modelled from the spec: `Request(amount, priority)` reserves `amount`
bytes when they are available; when `amount > limit` the request is
admitted anyway and the excess over what is available is recorded as
underflow (so the system can progress). `none` stands for a caller that
would suspend (amount within the limit but above what is available); the
priority flag only orders the waiting queue, which is empty here. -/
def Request (mm : MemoryManager) (amount : Nat) (priority : Bool) : Option MemoryManager :=
  if amount ≤ mm.available then some { mm with available := mm.available - amount }
  else if mm.limit < amount then
    some { mm with available := 0, underflow := mm.underflow + (amount - mm.available) }
  else none

/-- Modelled from the spec: `Return(amount)` releases reserved bytes;
returns absorb underflow before replenishing `available`, and `available`
never exceeds `limit`. -/
def Return (mm : MemoryManager) (amount : Nat) : MemoryManager :=
  if amount ≤ mm.underflow then { mm with underflow := mm.underflow - amount }
  else
    { mm with
      underflow := 0
      available := min (mm.available + (amount - mm.underflow)) mm.limit }

/-- Modelled from the spec: `SetMemoryLimit(newLimit)` resizes the budget
live. On expand the freed slack first absorbs underflow and the rest
becomes available; on shrink, a deficit beyond what is currently
available is recorded as underflow. -/
def SetMemoryLimit (mm : MemoryManager) (newLimit : Nat) : MemoryManager :=
  if mm.limit ≤ newLimit then
    let extra := newLimit - mm.limit
    if mm.underflow ≤ extra then
      ⟨mm.available + (extra - mm.underflow), newLimit, 0⟩
    else
      ⟨mm.available, newLimit, mm.underflow - extra⟩
  else
    let deficit := mm.limit - newLimit
    if deficit ≤ mm.available then
      ⟨mm.available - deficit, newLimit, mm.underflow⟩
    else
      ⟨0, newLimit, mm.underflow + (deficit - mm.available)⟩

end memorymanager

/-! Theorems. -/

/-- Claim C1, counterexample: with `piecesCompleted = 3 > piecesNeeded = 2`,
`piecesRegistered = 0` and `workersRemaining = 1`, the claimed condition
`piecesCompleted ≥ piecesNeeded ∧ piecesRegistered = 0` holds but
`SegmentComplete` returns false, because the source compares
`piecesCompleted == piecesNeeded` with equality, not `≥`. -/
theorem SegmentComplete_claim_counterexample :
    ¬ (SegmentComplete segOverComplete = true ↔
      (segOverComplete.piecesCompleted ≥ segOverComplete.piecesNeeded ∧
        segOverComplete.piecesRegistered = 0) ∨
      (segOverComplete.workersRemaining = 0 ∧ segOverComplete.piecesRegistered = 0)) := by
  decide

/-- Claim C1 (amended): for every `unfinishedUploadSegment` state,
`SegmentComplete` returns true if and only if
(`piecesCompleted = piecesNeeded` and `piecesRegistered = 0`) or
(`workersRemaining = 0` and `piecesRegistered = 0`). -/
theorem SegmentComplete_iff (uc : unfinishedUploadSegment) :
    SegmentComplete uc = true ↔
      (uc.piecesCompleted = uc.piecesNeeded ∧ uc.piecesRegistered = 0) ∨
      (uc.workersRemaining = 0 ∧ uc.piecesRegistered = 0) := by
  unfold SegmentComplete
  split_ifs with h1 h2 <;> simp_all

/-- Claim C2: when the client is online and not shutting down,
`managedUpdateUploadSegmentStuckStatus` sets the stuck flag to false
exactly when `piecesCompleted ≥ (1 − RemoteRepairDownloadThreshold) · piecesNeeded`
and to true otherwise. -/
theorem managedUpdateUploadSegmentStuckStatus_stuck_iff (threshold : ℚ)
    (uc : unfinishedUploadSegment) (shuttingDown online : Bool)
    (hOnline : online = true) (hShutdown : shuttingDown = false) :
    (managedUpdateUploadSegmentStuckStatus threshold uc shuttingDown online = some false ↔
      (1 - threshold) * (uc.piecesNeeded : ℚ) ≤ (uc.piecesCompleted : ℚ)) ∧
    (managedUpdateUploadSegmentStuckStatus threshold uc shuttingDown online = some true ↔
      ¬ (1 - threshold) * (uc.piecesNeeded : ℚ) ≤ (uc.piecesCompleted : ℚ)) := by
  subst hOnline hShutdown
  by_cases h : (1 - threshold) * (uc.piecesNeeded : ℚ) ≤ (uc.piecesCompleted : ℚ) <;>
    simp [managedUpdateUploadSegmentStuckStatus, renterError, successfulRepair, h]

/-- Claim C2 witness: at threshold 1/4 with 3 of 4 pieces completed while
online and not shutting down, the stuck flag is set to false. -/
theorem managedUpdateUploadSegmentStuckStatus_stuck_iff_witness :
    (managedUpdateUploadSegmentStuckStatus (1/4) segStuckCheck false true = some false ↔
      (1 - (1/4 : ℚ)) * (segStuckCheck.piecesNeeded : ℚ) ≤ (segStuckCheck.piecesCompleted : ℚ)) ∧
    (managedUpdateUploadSegmentStuckStatus (1/4) segStuckCheck false true = some true ↔
      ¬ (1 - (1/4 : ℚ)) * (segStuckCheck.piecesNeeded : ℚ) ≤ (segStuckCheck.piecesCompleted : ℚ)) :=
  managedUpdateUploadSegmentStuckStatus_stuck_iff (1/4) segStuckCheck false true rfl rfl

/-- Claim C10: `UpdateMetadata` leaves the stored DxPath and RootPath
unchanged, copies NumFiles, TotalSize, Health, StuckHealth,
MinRedundancy, TimeLastHealthCheck and NumStuckSegments from the
argument, and sets TimeModify to the current time. -/
theorem UpdateMetadata_frame (old arg : dxdir.Metadata) (now : Nat) :
    (dxdir.UpdateMetadata old arg now).DxPath = old.DxPath ∧
    (dxdir.UpdateMetadata old arg now).RootPath = old.RootPath ∧
    (dxdir.UpdateMetadata old arg now).NumFiles = arg.NumFiles ∧
    (dxdir.UpdateMetadata old arg now).TotalSize = arg.TotalSize ∧
    (dxdir.UpdateMetadata old arg now).Health = arg.Health ∧
    (dxdir.UpdateMetadata old arg now).StuckHealth = arg.StuckHealth ∧
    (dxdir.UpdateMetadata old arg now).MinRedundancy = arg.MinRedundancy ∧
    (dxdir.UpdateMetadata old arg now).TimeLastHealthCheck = arg.TimeLastHealthCheck ∧
    (dxdir.UpdateMetadata old arg now).NumStuckSegments = arg.NumStuckSegments ∧
    (dxdir.UpdateMetadata old arg now).TimeModify = now :=
  ⟨rfl, rfl, rfl, rfl, rfl, rfl, rfl, rfl, rfl, rfl⟩

/-- Claim C8 (code bug): for root directory "/persist/filesystem" and path
"foo", `DirSet.dirFilePath` — the location `Exists` consults — evaluates
to "foo/foo/.dxdir", while `New` creates the metadata file at the
root-joined location "/persist/filesystem/foo/.dxdir"; the two differ
because the source joins the path with itself instead of with the set's
root directory. -/
theorem dirFilePath_ignores_root :
    dxdir.DirSet.dirFilePath "/persist/filesystem" "foo" = "foo/foo/.dxdir" ∧
    dxdir.newDxDirFilePath "/persist/filesystem" "foo" = "/persist/filesystem/foo/.dxdir" ∧
    dxdir.DirSet.dirFilePath "/persist/filesystem" "foo" ≠
      dxdir.newDxDirFilePath "/persist/filesystem" "foo" := by
  refine ⟨rfl, rfl, ?_⟩
  decide

/-- Claim C6: starting from a manager with limit 10000, Request(15000, high)
is admitted with underflow 5000; SetMemoryLimit(5000) shrinks the budget
and raises the underflow to 10000; Return(15000) absorbs the underflow and
leaves underflow = 0, available = 5000, limit = 5000. -/
theorem memory_shrink_scenario :
    memorymanager.Request (memorymanager.New 10000) 15000 true =
      some (⟨0, 10000, 5000⟩ : memorymanager.MemoryManager) ∧
    memorymanager.SetMemoryLimit (⟨0, 10000, 5000⟩ : memorymanager.MemoryManager) 5000 =
      (⟨0, 5000, 10000⟩ : memorymanager.MemoryManager) ∧
    (memorymanager.SetMemoryLimit (⟨0, 10000, 5000⟩ : memorymanager.MemoryManager) 5000).underflow
      = 10000 ∧
    memorymanager.Return (⟨0, 5000, 10000⟩ : memorymanager.MemoryManager) 15000 =
      (⟨5000, 5000, 0⟩ : memorymanager.MemoryManager) := by
  decide

/-- Claim C5, counterexample: with a local path present ("p"), a failing
`os.Open`, and every piece missing, the method still issues a remote
repair download, so "downloads exactly when the file has no local path
and the threshold condition holds" fails in the only-if direction. -/
theorem managedFetchLogicalSegmentData_claim_counterexample :
    ¬ (managedFetchLogicalSegmentData (1/4) "p" diskOpenFailEnv segAllMissing =
        .remoteDownload ↔
      ("p" = "" ∧
        segAllMissing.piecesCompleted +
          goInt (((segAllMissing.piecesNeeded - segAllMissing.minimumPieces : Int) : ℚ) * (1/4))
          < segAllMissing.piecesNeeded)) := by
  have hg : goInt (((segAllMissing.piecesNeeded - segAllMissing.minimumPieces : Int) : ℚ) * (1/4))
      = 0 := by
    norm_num [segAllMissing, goInt]
  intro hiff
  have hA : managedFetchLogicalSegmentData (1/4) "p" diskOpenFailEnv segAllMissing =
      .remoteDownload := by
    simp only [managedFetchLogicalSegmentData, segAllMissing, diskOpenFailEnv] at hg ⊢
    rw [hg]
    norm_num
    intro h1 h2
    exact absurd h2 h1
  exact absurd (hiff.mp hA).1 (by simp)

/-- Claim C5 (amended): when the file has no local path,
`managedFetchLogicalSegmentData` issues a remote repair download exactly
when `piecesCompleted + int(threshold·(piecesNeeded − minimumPieces)) <
piecesNeeded`, and returns the not-available error (without downloading)
exactly otherwise. -/
theorem managedFetchLogicalSegmentData_noLocal_iff (threshold : ℚ) (env : DiskEnv)
    (seg : unfinishedUploadSegment) :
    (managedFetchLogicalSegmentData threshold "" env seg = .remoteDownload ↔
      seg.piecesCompleted +
        goInt (((seg.piecesNeeded - seg.minimumPieces : Int) : ℚ) * threshold)
        < seg.piecesNeeded) ∧
    (managedFetchLogicalSegmentData threshold "" env seg = .errNotAvailable ↔
      ¬ seg.piecesCompleted +
        goInt (((seg.piecesNeeded - seg.minimumPieces : Int) : ℚ) * threshold)
        < seg.piecesNeeded) := by
  by_cases h : seg.piecesCompleted +
      goInt (((seg.piecesNeeded - seg.minimumPieces : Int) : ℚ) * threshold)
      < seg.piecesNeeded <;>
    simp [managedFetchLogicalSegmentData, h]

/-- Helper: the pieceCompletedMemory loop sums to the sector size times the
number of used pieces. -/
theorem pieceCompletedMemory_eq (l : List Bool) :
    pieceCompletedMemory l = SectorSize * l.count true := by
  suffices h : ∀ acc : Nat,
      l.foldl (fun acc u => if u then acc + SectorSize else acc) acc
        = acc + SectorSize * l.count true by
    simpa [pieceCompletedMemory] using h 0
  induction l with
  | nil => simp
  | cons b t ih => intro acc; cases b <;> simp [List.count_cons, ih] <;> ring

/-- Helper: the release pass preserves the number of piece slots. -/
theorem cleanUpScan_length (wr : Int) (l : List (Bool × Option Bytes)) (pa : Int) (mr : Nat) :
    (cleanUpScan wr l pa mr).1.length = l.length := by
  induction l generalizing pa mr with
  | nil => simp [cleanUpScan]
  | cons hd tl ih =>
    obtain ⟨u, d⟩ := hd
    by_cases hu : u = true <;> by_cases hc : wr ≤ pa <;>
      simp [cleanUpScan, hu, hc, ih]

/-- Helper: the release pass over a concatenation scans the first part and
continues over the second with the accumulated counters. -/
theorem cleanUpScan_append (wr : Int) (xs ys : List (Bool × Option Bytes)) (pa : Int) (mr : Nat) :
    cleanUpScan wr (xs ++ ys) pa mr =
      ((cleanUpScan wr xs pa mr).1 ++
         (cleanUpScan wr ys (cleanUpScan wr xs pa mr).2.1 (cleanUpScan wr xs pa mr).2.2).1,
       (cleanUpScan wr ys (cleanUpScan wr xs pa mr).2.1 (cleanUpScan wr xs pa mr).2.2).2) := by
  induction xs generalizing pa mr with
  | nil => simp [cleanUpScan]
  | cons hd tl ih =>
    obtain ⟨u, d⟩ := hd
    by_cases hu : u = true <;> by_cases hc : wr ≤ pa <;>
      simp [cleanUpScan, hu, hc, ih]

/-- Helper: the memory counter of the release pass grows by exactly one
sector size per newly claimed slot. -/
theorem cleanUpScan_memory (wr : Int) (l : List (Bool × Option Bytes)) (pa : Int) (mr : Nat) :
    (cleanUpScan wr l pa mr).2.2 =
      mr + SectorSize * newlyClaimedCount l (cleanUpScan wr l pa mr).1 := by
  induction l generalizing pa mr with
  | nil => simp [cleanUpScan, newlyClaimedCount]
  | cons hd tl ih =>
    obtain ⟨u, d⟩ := hd
    by_cases hu : u = true <;> by_cases hc : wr ≤ pa <;>
      simp [cleanUpScan, hu, hc, ih, newlyClaimedCount, List.countP_cons] <;> ring

/-- Helper: at an unused position i, the release pass takes the branch
decided by the piecesAvailable counter accumulated over the prefix. -/
theorem cleanUpScan_step (wr : Int) (l : List (Bool × Option Bytes)) (i : Nat)
    (p : Bool × Option Bytes) (hp : l[i]? = some p) (hu : p.1 = false) :
    (wr ≤ (cleanUpScan wr (l.take i) 0 0).2.1 →
        (cleanUpScan wr l 0 0).1[i]? = some (true, none) ∧
        (cleanUpScan wr (l.take (i+1)) 0 0).2.2
          = (cleanUpScan wr (l.take i) 0 0).2.2 + SectorSize ∧
        (cleanUpScan wr (l.take (i+1)) 0 0).2.1 = (cleanUpScan wr (l.take i) 0 0).2.1) ∧
    ((cleanUpScan wr (l.take i) 0 0).2.1 < wr →
        (cleanUpScan wr l 0 0).1[i]? = some p ∧
        (cleanUpScan wr (l.take (i+1)) 0 0).2.1
          = (cleanUpScan wr (l.take i) 0 0).2.1 + 1 ∧
        (cleanUpScan wr (l.take (i+1)) 0 0).2.2 = (cleanUpScan wr (l.take i) 0 0).2.2) := by
  obtain ⟨b, d⟩ := p
  have hb : b = false := hu
  subst hb
  have hi : i < l.length := by
    have := List.getElem?_eq_some_iff.mp hp
    exact this.1
  have hdrop : l.drop i = (false, d) :: l.drop (i + 1) := by
    have h1 : l[i] = (false, d) := by
      have := List.getElem?_eq_some_iff.mp hp
      obtain ⟨h, hv⟩ := this
      exact hv
    rw [List.drop_eq_getElem_cons hi, h1]
  have hsplit : l = l.take i ++ ((false, d) :: l.drop (i + 1)) := by
    conv_lhs => rw [← List.take_append_drop i l]
    rw [hdrop]
  have htake : l.take (i + 1) = l.take i ++ [(false, d)] := by
    rw [List.take_succ, hp]
    rfl
  have hlentake : (cleanUpScan wr (l.take i) 0 0).1.length = i := by
    rw [cleanUpScan_length, List.length_take]
    omega
  constructor
  · intro hc
    have hget : (cleanUpScan wr l 0 0).1[i]? = some (true, none) := by
      conv_lhs => rw [hsplit]
      rw [cleanUpScan_append]
      rw [List.getElem?_append_right (by omega)]
      rw [hlentake]
      simp only [Nat.sub_self]
      simp [cleanUpScan, hc]
    refine ⟨hget, ?_, ?_⟩ <;>
      · rw [htake, cleanUpScan_append]
        simp [cleanUpScan, hc]
  · intro hc
    have hcn : ¬ wr ≤ (cleanUpScan wr (l.take i) 0 0).2.1 := by omega
    have hget : (cleanUpScan wr l 0 0).1[i]? = some (false, d) := by
      conv_lhs => rw [hsplit]
      rw [cleanUpScan_append]
      rw [List.getElem?_append_right (by omega)]
      rw [hlentake]
      simp only [Nat.sub_self]
      simp [cleanUpScan, hcn]
    refine ⟨hget, ?_, ?_⟩ <;>
      · rw [htake, cleanUpScan_append]
        simp [cleanUpScan, hcn]

/-- Claim C3: in the release pass of `managedCleanUpUploadSegment`, for
every unused piece index i (scanned in increasing order): if the number
of available pieces counted so far is at least `workersRemaining`, the
physical slot is set to nil, the usage flag is set to true, and one
sector size is added to the released amount; otherwise the piece is
counted as available and left untouched. The memory handed back to the
memory manager equals the sector size times the number of slots the pass
claimed. -/
theorem cleanUp_release_pass (uc : unfinishedUploadSegment) :
    (∀ i p, (uc.pieceUsage.zip uc.physicalSegmentData)[i]? = some p → p.1 = false →
      ((uc.workersRemaining ≤ piecesAvailableAt uc i →
          (managedCleanUpUploadSegment uc).1.pieceUsage[i]? = some true ∧
          (managedCleanUpUploadSegment uc).1.physicalSegmentData[i]? = some none ∧
          memoryReleasedAt uc (i+1) = memoryReleasedAt uc i + SectorSize ∧
          piecesAvailableAt uc (i+1) = piecesAvailableAt uc i) ∧
       (piecesAvailableAt uc i < uc.workersRemaining →
          (managedCleanUpUploadSegment uc).1.pieceUsage[i]? = some false ∧
          (managedCleanUpUploadSegment uc).1.physicalSegmentData[i]? = some p.2 ∧
          piecesAvailableAt uc (i+1) = piecesAvailableAt uc i + 1 ∧
          memoryReleasedAt uc (i+1) = memoryReleasedAt uc i))) ∧
    (managedCleanUpUploadSegment uc).2 =
      SectorSize * newlyClaimedCount (uc.pieceUsage.zip uc.physicalSegmentData)
        (cleanUpScan uc.workersRemaining (uc.pieceUsage.zip uc.physicalSegmentData) 0 0).1 := by
  constructor
  · intro i p hp hu
    have hstep := cleanUpScan_step uc.workersRemaining
      (uc.pieceUsage.zip uc.physicalSegmentData) i p hp hu
    constructor
    · intro hc
      obtain ⟨h1, h2, h3⟩ := hstep.1 hc
      refine ⟨?_, ?_, h2, h3⟩ <;>
        simp [managedCleanUpUploadSegment, List.getElem?_map, h1]
    · intro hc
      obtain ⟨h1, h2, h3⟩ := hstep.2 hc
      refine ⟨?_, ?_, h2, h3⟩ <;>
        simp [managedCleanUpUploadSegment, List.getElem?_map, h1, hu]
  · simpa [managedCleanUpUploadSegment] using
      cleanUpScan_memory uc.workersRemaining (uc.pieceUsage.zip uc.physicalSegmentData) 0 0

/-- Claim C3 witness: on the concrete segment with pieces
[used, free, free] and one worker remaining, position 2 is released. -/
theorem cleanUp_release_pass_witness :
    (segCleanup.workersRemaining ≤ piecesAvailableAt segCleanup 2 →
      (managedCleanUpUploadSegment segCleanup).1.pieceUsage[2]? = some true ∧
      (managedCleanUpUploadSegment segCleanup).1.physicalSegmentData[2]? = some none ∧
      memoryReleasedAt segCleanup 3 = memoryReleasedAt segCleanup 2 + SectorSize ∧
      piecesAvailableAt segCleanup 3 = piecesAvailableAt segCleanup 2) ∧
    (piecesAvailableAt segCleanup 2 < segCleanup.workersRemaining →
      (managedCleanUpUploadSegment segCleanup).1.pieceUsage[2]? = some false ∧
      (managedCleanUpUploadSegment segCleanup).1.physicalSegmentData[2]? =
        some ((false, some [3]) : Bool × Option Bytes).2 ∧
      piecesAvailableAt segCleanup 3 = piecesAvailableAt segCleanup 2 + 1 ∧
      memoryReleasedAt segCleanup 3 = memoryReleasedAt segCleanup 2) :=
  (cleanUp_release_pass segCleanup).1 2 ((false, some [3]) : Bool × Option Bytes)
    (by decide) (by decide)

/-- Claim C4: when fetching the logical data fails,
`threadedFetchAndRepairSegment` zeroes `workersRemaining`, drops
`logicalSegmentData`, and hands exactly
`erasureCodingMemory + pieceCompletedMemory` bytes — the file sector size
times MinSectors plus `storage.SectorSize` times the number of true
pieceUsage entries — back to the memory manager, adding the same amount
to the segment's `memoryReleased`, before returning. -/
theorem fetch_failure_releases_memory (env : RepairEnv) (uc : unfinishedUploadSegment)
    (h : env.fetchResult = none) :
    (threadedFetchAndRepairSegmentBody env uc).1.workersRemaining = 0 ∧
    (threadedFetchAndRepairSegmentBody env uc).1.logicalSegmentData = none ∧
    (threadedFetchAndRepairSegmentBody env uc).2 =
      env.fileSectorSize * env.minSectors + SectorSize * uc.pieceUsage.count true ∧
    (threadedFetchAndRepairSegmentBody env uc).1.memoryReleased =
      uc.memoryReleased + (threadedFetchAndRepairSegmentBody env uc).2 := by
  simp [threadedFetchAndRepairSegmentBody, h, pieceCompletedMemory_eq]

/-- Claim C4 witness: evaluating the fetch-failure path on a concrete
segment with two used pieces, file sector size 100 and MinSectors 2. -/
theorem fetch_failure_releases_memory_witness :
    (threadedFetchAndRepairSegmentBody envFetchFail segFetchFail).1.workersRemaining = 0 ∧
    (threadedFetchAndRepairSegmentBody envFetchFail segFetchFail).1.logicalSegmentData = none ∧
    (threadedFetchAndRepairSegmentBody envFetchFail segFetchFail).2 =
      envFetchFail.fileSectorSize * envFetchFail.minSectors +
        SectorSize * segFetchFail.pieceUsage.count true ∧
    (threadedFetchAndRepairSegmentBody envFetchFail segFetchFail).1.memoryReleased =
      segFetchFail.memoryReleased +
        (threadedFetchAndRepairSegmentBody envFetchFail segFetchFail).2 :=
  fetch_failure_releases_memory envFetchFail segFetchFail rfl

/-- Claim C7: for a whole-file download (offset 0, length the file size) of
a file whose size is not a multiple of the segment size, the unfinished
download segment built for the last segment (index `fileSize / segmentSize`)
has `fetchLength = fileSize % segmentSize`; and the repair-download path
requests only `fileSize % segmentLength` bytes for the last segment of
such a file. -/
theorem lastSegment_fetchLength (segmentSize fileSize numSegments segIndex : Nat)
    (hpos : 0 < segmentSize) (hrem : fileSize % segmentSize ≠ 0)
    (hlast : segIndex = numSegments - 1) :
    (downloadFetchParams segmentSize 0 fileSize (fileSize / segmentSize)).2
      = fileSize % segmentSize ∧
    repairDownloadLength numSegments fileSize segIndex segmentSize
      = fileSize % segmentSize := by
  constructor
  · simp [downloadFetchParams, SegmentIndexByOffset, hrem, ite_self]
  · simp [repairDownloadLength, hlast, hrem]

/-- Claim C7 witness: a 10-byte file with 4-byte segments has a last
segment (index 2) fetching 2 bytes, and the repair download for that last
segment requests 2 bytes. -/
theorem lastSegment_fetchLength_witness :
    (downloadFetchParams 4 0 10 (10 / 4)).2 = 10 % 4 ∧
    repairDownloadLength 3 10 2 4 = 10 % 4 :=
  lastSegment_fetchLength 4 10 3 2 (by decide) (by decide) (by decide)

namespace unit

/-- Helper: facts about a single decimal digit character. -/
theorem digitChar_facts (d : Nat) (hd : d < 10) :
    isDigitChar (digitChar d) = true ∧ (digitChar d == ' ') = false ∧
    goToLower (digitChar d) = digitChar d ∧ digitVal (digitChar d) = some d := by
  interval_cases d <;> decide

/-- Helper: every character produced by toDigitsRev is a digit character. -/
theorem toDigitsRev_form (n : Nat) : ∀ c ∈ toDigitsRev n, ∃ d, d < 10 ∧ c = digitChar d := by
  induction n using Nat.strong_induction_on with
  | _ n ih =>
    match n with
    | 0 =>
      intro c hc
      simp [toDigitsRev] at hc
    | m + 1 =>
      intro c hc
      rw [toDigitsRev] at hc
      rcases List.mem_cons.mp hc with h | h
      · exact ⟨(m + 1) % 10, Nat.mod_lt _ (by omega), h⟩
      · exact ih ((m + 1) / 10) (Nat.div_lt_self (by omega) (by omega)) c h

/-- Helper: every character of a printed number is a digit, is not a space,
and is fixed by lower-casing. -/
theorem numChars_props (n : Nat) :
    ∀ c ∈ numChars n, isDigitChar c = true ∧ (c == ' ') = false ∧ goToLower c = c := by
  intro c hc
  unfold numChars at hc
  split_ifs at hc with h
  · have : c = '0' := by simpa using hc
    subst this
    decide
  · obtain ⟨d, hd, rfl⟩ := toDigitsRev_form n c (List.mem_reverse.mp hc)
    obtain ⟨f1, f2, f3, _⟩ := digitChar_facts d hd
    exact ⟨f1, f2, f3⟩

/-- Helper: parseDigitsAux consumes a concatenation left to right. -/
theorem parseDigitsAux_append (acc : Nat) (xs ys : List Char) :
    parseDigitsAux acc (xs ++ ys) =
      match parseDigitsAux acc xs with
      | some a => parseDigitsAux a ys
      | none => none := by
  induction xs generalizing acc with
  | nil => simp [parseDigitsAux]
  | cons c cs ih =>
    simp only [List.cons_append, parseDigitsAux]
    cases h : digitVal c with
    | some d => simp [h, ih]
    | none => simp [h]

/-- Helper: parsing the reversed digit expansion recovers the value. -/
theorem parseDigitsAux_toDigitsRev (n : Nat) : ∀ acc : Nat,
    parseDigitsAux acc (toDigitsRev n).reverse
      = some (acc * 10 ^ (toDigitsRev n).length + n) := by
  induction n using Nat.strong_induction_on with
  | _ n ih =>
    match n with
    | 0 =>
      intro acc
      simp [toDigitsRev, parseDigitsAux]
    | m + 1 =>
      intro acc
      rw [toDigitsRev, List.reverse_cons, parseDigitsAux_append,
        ih ((m + 1) / 10) (Nat.div_lt_self (by omega) (by omega))]
      have h10 : (m + 1) % 10 < 10 := Nat.mod_lt _ (by omega)
      simp only [parseDigitsAux, (digitChar_facts _ h10).2.2.2, List.length_cons]
      congr 1
      have hdm := Nat.div_add_mod (m + 1) 10
      rw [pow_succ]
      ring_nf
      omega

/-- Helper: parsing a printed number recovers it. -/
theorem parseDigits_numChars (n : Nat) : parseDigits (numChars n) = some n := by
  rcases Nat.eq_zero_or_pos n with h | h
  · subst h
    decide
  · have h0 : n ≠ 0 := by omega
    have h1 : numChars n = (toDigitsRev n).reverse := by simp [numChars, h0]
    obtain ⟨m, rfl⟩ : ∃ m, n = m + 1 := ⟨n - 1, by omega⟩
    have h2 : (toDigitsRev (m + 1)).reverse ≠ [] := by
      rw [toDigitsRev]
      simp
    rw [h1, parseDigits, if_neg (by simpa [List.isEmpty_iff] using h2)]
    simpa using parseDigitsAux_toDigitsRev (m + 1) 0

/-- Helper: formatString fixes a list of non-space lower-fixed characters. -/
theorem formatString_of_digits : ∀ l : List Char,
    (∀ c ∈ l, (c == ' ') = false ∧ goToLower c = c) → formatString l = l
  | [], _ => rfl
  | c :: cs, h => by
    obtain ⟨h1, h2⟩ := h c (List.mem_cons_self c cs)
    have ih := formatString_of_digits cs fun x hx => h x (List.mem_cons_of_mem c hx)
    simp only [formatString] at ih ⊢
    simp [h1, h2, ih]

/-- Helper: formatString distributes over concatenation. -/
theorem formatString_append (xs ys : List Char) :
    formatString (xs ++ ys) = formatString xs ++ formatString ys := by
  simp [formatString]

/-- Helper: formatString fixes a printed number. -/
theorem formatString_numChars (n : Nat) : formatString (numChars n) = numChars n :=
  formatString_of_digits _ fun c hc =>
    ⟨(numChars_props n c hc).2.1, (numChars_props n c hc).2.2⟩

/-- Helper: a suffix of a concatenation is a suffix of the right part or
extends it by a nonempty suffix of the left part. -/
theorem suffix_append_cases {v ds u : List Char} (h : v <:+ ds ++ u) :
    v <:+ u ∨ ∃ t, t ≠ [] ∧ t <:+ ds ∧ v = t ++ u := by
  induction ds with
  | nil => exact Or.inl h
  | cons c cs ih =>
    rw [List.cons_append, List.suffix_cons_iff] at h
    rcases h with h | h
    · exact Or.inr ⟨c :: cs, by simp, List.suffix_rfl, by rw [h, List.cons_append]⟩
    · rcases ih h with h2 | ⟨t, ht1, ht2, ht3⟩
      · exact Or.inl h2
      · exact Or.inr ⟨t, ht1, ht2.trans (List.suffix_cons c cs), ht3⟩

/-- Helper: a candidate unit suffix cannot match across the boundary of
digits followed by another unit. -/
theorem not_suffix_digits_append {v u ds : List Char}
    (hd : ∀ c ∈ ds, isDigitChar c = true)
    (h1 : ¬ v <:+ u)
    (h2 : ∀ t, t ≠ [] → v = t ++ u → ∃ c ∈ t, isDigitChar c = false) :
    ¬ v <:+ ds ++ u := by
  intro h
  rcases suffix_append_cases h with h3 | ⟨t, ht1, ht2, ht3⟩
  · exact h1 h3
  · obtain ⟨c, hc1, hc2⟩ := h2 t ht1 ht3
    have := hd c (ht2.subset hc1)
    simp [this] at hc2

/-- Helper: the five non-wei non-ether unit suffixes are mutually
exclusive, so the unspecified iteration order of the Go CurrencyIndexMap
map cannot change which unit ParseCurrency selects. -/
theorem loopUnits_suffix_unique (s u v : List Char)
    (hu : u ∈ [kweiChars, mweiChars, gweiChars, microetherChars, millietherChars])
    (hv : v ∈ [kweiChars, mweiChars, gweiChars, microetherChars, millietherChars])
    (hne : u ≠ v) (hus : u <:+ s) : ¬ v <:+ s := by
  intro hvs
  fin_cases hu <;> fin_cases hv <;>
    first
      | exact hne rfl
      | · rcases List.suffix_or_suffix_of_suffix hus hvs with h | h <;> revert h <;> decide

/-- Helper: stripping the unit suffix from digits-plus-unit and scaling. -/
theorem stringToBigInt_append (mult q : Nat) (u : List Char) :
    stringToBigInt mult u (numChars q ++ u) = some (q * mult) := by
  unfold stringToBigInt
  rw [List.length_append, Nat.add_sub_cancel, List.take_left, parseDigits_numChars]
  rfl

/-- Helper: parsing the printed form of q Kwei. -/
theorem ParseCurrency_kwei (q : Nat) :
    ParseCurrency (numChars q ++ [' '] ++ kweiDisplay) = some (q * 1000) := by
  have hfs : formatString (numChars q ++ [' '] ++ kweiDisplay) = numChars q ++ kweiChars := by
    rw [List.append_assoc, formatString_append, formatString_numChars]
    exact congrArg (fun x => numChars q ++ x) (by decide)
  have h1 : kweiChars.isSuffixOf (numChars q ++ kweiChars) = true :=
    List.isSuffixOf_iff_suffix.mpr (List.suffix_append _ _)
  simp only [ParseCurrency]
  rw [hfs, h1]
  simp
  exact stringToBigInt_append 1000 q kweiChars

/-- Helper: parsing the printed form of q Mwei. -/
theorem ParseCurrency_mwei (q : Nat) :
    ParseCurrency (numChars q ++ [' '] ++ mweiDisplay) = some (q * 1000000) := by
  have hds : ∀ c ∈ numChars q, isDigitChar c = true := fun c hc => (numChars_props q c hc).1
  have hfs : formatString (numChars q ++ [' '] ++ mweiDisplay) = numChars q ++ mweiChars := by
    rw [List.append_assoc, formatString_append, formatString_numChars]
    exact congrArg (fun x => numChars q ++ x) (by decide)
  have h1 : kweiChars.isSuffixOf (numChars q ++ mweiChars) = false :=
    Bool.eq_false_iff.mpr fun hb =>
      not_suffix_digits_append hds (by decide)
        (fun t _ hv => absurd (show mweiChars <:+ kweiChars from ⟨t, hv.symm⟩) (by decide))
        (List.isSuffixOf_iff_suffix.mp hb)
  have h2 : mweiChars.isSuffixOf (numChars q ++ mweiChars) = true :=
    List.isSuffixOf_iff_suffix.mpr (List.suffix_append _ _)
  simp only [ParseCurrency]
  rw [hfs, h1, h2]
  simp
  exact stringToBigInt_append 1000000 q mweiChars

/-- Helper: parsing the printed form of q Gwei. -/
theorem ParseCurrency_gwei (q : Nat) :
    ParseCurrency (numChars q ++ [' '] ++ gweiDisplay) = some (q * 1000000000) := by
  have hds : ∀ c ∈ numChars q, isDigitChar c = true := fun c hc => (numChars_props q c hc).1
  have hfs : formatString (numChars q ++ [' '] ++ gweiDisplay) = numChars q ++ gweiChars := by
    rw [List.append_assoc, formatString_append, formatString_numChars]
    exact congrArg (fun x => numChars q ++ x) (by decide)
  have h1 : kweiChars.isSuffixOf (numChars q ++ gweiChars) = false :=
    Bool.eq_false_iff.mpr fun hb =>
      not_suffix_digits_append hds (by decide)
        (fun t _ hv => absurd (show gweiChars <:+ kweiChars from ⟨t, hv.symm⟩) (by decide))
        (List.isSuffixOf_iff_suffix.mp hb)
  have h2 : mweiChars.isSuffixOf (numChars q ++ gweiChars) = false :=
    Bool.eq_false_iff.mpr fun hb =>
      not_suffix_digits_append hds (by decide)
        (fun t _ hv => absurd (show gweiChars <:+ mweiChars from ⟨t, hv.symm⟩) (by decide))
        (List.isSuffixOf_iff_suffix.mp hb)
  have h3 : gweiChars.isSuffixOf (numChars q ++ gweiChars) = true :=
    List.isSuffixOf_iff_suffix.mpr (List.suffix_append _ _)
  simp only [ParseCurrency]
  rw [hfs, h1, h2, h3]
  simp
  exact stringToBigInt_append 1000000000 q gweiChars

/-- Helper: parsing the printed form of q microether. -/
theorem ParseCurrency_microether (q : Nat) :
    ParseCurrency (numChars q ++ [' '] ++ microetherChars) = some (q * 1000000000000) := by
  have hds : ∀ c ∈ numChars q, isDigitChar c = true := fun c hc => (numChars_props q c hc).1
  have hfs : formatString (numChars q ++ [' '] ++ microetherChars)
      = numChars q ++ microetherChars := by
    rw [List.append_assoc, formatString_append, formatString_numChars]
    exact congrArg (fun x => numChars q ++ x) (by decide)
  have h1 : kweiChars.isSuffixOf (numChars q ++ microetherChars) = false :=
    Bool.eq_false_iff.mpr fun hb =>
      not_suffix_digits_append hds (by decide)
        (fun t _ hv =>
          absurd (show microetherChars <:+ kweiChars from ⟨t, hv.symm⟩) (by decide))
        (List.isSuffixOf_iff_suffix.mp hb)
  have h2 : mweiChars.isSuffixOf (numChars q ++ microetherChars) = false :=
    Bool.eq_false_iff.mpr fun hb =>
      not_suffix_digits_append hds (by decide)
        (fun t _ hv =>
          absurd (show microetherChars <:+ mweiChars from ⟨t, hv.symm⟩) (by decide))
        (List.isSuffixOf_iff_suffix.mp hb)
  have h3 : gweiChars.isSuffixOf (numChars q ++ microetherChars) = false :=
    Bool.eq_false_iff.mpr fun hb =>
      not_suffix_digits_append hds (by decide)
        (fun t _ hv =>
          absurd (show microetherChars <:+ gweiChars from ⟨t, hv.symm⟩) (by decide))
        (List.isSuffixOf_iff_suffix.mp hb)
  have h4 : microetherChars.isSuffixOf (numChars q ++ microetherChars) = true :=
    List.isSuffixOf_iff_suffix.mpr (List.suffix_append _ _)
  simp only [ParseCurrency]
  rw [hfs, h1, h2, h3, h4]
  simp
  exact stringToBigInt_append 1000000000000 q microetherChars

/-- Helper: parsing the printed form of q milliether. -/
theorem ParseCurrency_milliether (q : Nat) :
    ParseCurrency (numChars q ++ [' '] ++ millietherChars)
      = some (q * 1000000000000000) := by
  have hds : ∀ c ∈ numChars q, isDigitChar c = true := fun c hc => (numChars_props q c hc).1
  have hfs : formatString (numChars q ++ [' '] ++ millietherChars)
      = numChars q ++ millietherChars := by
    rw [List.append_assoc, formatString_append, formatString_numChars]
    exact congrArg (fun x => numChars q ++ x) (by decide)
  have h1 : kweiChars.isSuffixOf (numChars q ++ millietherChars) = false :=
    Bool.eq_false_iff.mpr fun hb =>
      not_suffix_digits_append hds (by decide)
        (fun t _ hv =>
          absurd (show millietherChars <:+ kweiChars from ⟨t, hv.symm⟩) (by decide))
        (List.isSuffixOf_iff_suffix.mp hb)
  have h2 : mweiChars.isSuffixOf (numChars q ++ millietherChars) = false :=
    Bool.eq_false_iff.mpr fun hb =>
      not_suffix_digits_append hds (by decide)
        (fun t _ hv =>
          absurd (show millietherChars <:+ mweiChars from ⟨t, hv.symm⟩) (by decide))
        (List.isSuffixOf_iff_suffix.mp hb)
  have h3 : gweiChars.isSuffixOf (numChars q ++ millietherChars) = false :=
    Bool.eq_false_iff.mpr fun hb =>
      not_suffix_digits_append hds (by decide)
        (fun t _ hv =>
          absurd (show millietherChars <:+ gweiChars from ⟨t, hv.symm⟩) (by decide))
        (List.isSuffixOf_iff_suffix.mp hb)
  have h4 : microetherChars.isSuffixOf (numChars q ++ millietherChars) = false :=
    Bool.eq_false_iff.mpr fun hb =>
      not_suffix_digits_append hds (by decide)
        (fun t _ hv =>
          absurd (show millietherChars <:+ microetherChars from ⟨t, hv.symm⟩) (by decide))
        (List.isSuffixOf_iff_suffix.mp hb)
  have h5 : millietherChars.isSuffixOf (numChars q ++ millietherChars) = true :=
    List.isSuffixOf_iff_suffix.mpr (List.suffix_append _ _)
  simp only [ParseCurrency]
  rw [hfs, h1, h2, h3, h4, h5]
  simp
  exact stringToBigInt_append 1000000000000000 q millietherChars

/-- Helper: parsing the printed form of q wei. -/
theorem ParseCurrency_wei (q : Nat) :
    ParseCurrency (numChars q ++ [' '] ++ weiChars) = some (q * 1) := by
  have hds : ∀ c ∈ numChars q, isDigitChar c = true := fun c hc => (numChars_props q c hc).1
  have hfs : formatString (numChars q ++ [' '] ++ weiChars) = numChars q ++ weiChars := by
    rw [List.append_assoc, formatString_append, formatString_numChars]
    exact congrArg (fun x => numChars q ++ x) (by decide)
  have h1 : kweiChars.isSuffixOf (numChars q ++ weiChars) = false :=
    Bool.eq_false_iff.mpr fun hb =>
      not_suffix_digits_append hds (by decide)
        (fun t _ hv => by
          have h3 : t = ['k'] := List.append_cancel_right (by rw [← hv]; rfl)
          exact ⟨'k', by simp [h3], by decide⟩)
        (List.isSuffixOf_iff_suffix.mp hb)
  have h2 : mweiChars.isSuffixOf (numChars q ++ weiChars) = false :=
    Bool.eq_false_iff.mpr fun hb =>
      not_suffix_digits_append hds (by decide)
        (fun t _ hv => by
          have h3 : t = ['m'] := List.append_cancel_right (by rw [← hv]; rfl)
          exact ⟨'m', by simp [h3], by decide⟩)
        (List.isSuffixOf_iff_suffix.mp hb)
  have h3 : gweiChars.isSuffixOf (numChars q ++ weiChars) = false :=
    Bool.eq_false_iff.mpr fun hb =>
      not_suffix_digits_append hds (by decide)
        (fun t _ hv => by
          have h4 : t = ['g'] := List.append_cancel_right (by rw [← hv]; rfl)
          exact ⟨'g', by simp [h4], by decide⟩)
        (List.isSuffixOf_iff_suffix.mp hb)
  have h4 : microetherChars.isSuffixOf (numChars q ++ weiChars) = false :=
    Bool.eq_false_iff.mpr fun hb =>
      not_suffix_digits_append hds (by decide)
        (fun t _ hv =>
          absurd (show weiChars <:+ microetherChars from ⟨t, hv.symm⟩) (by decide))
        (List.isSuffixOf_iff_suffix.mp hb)
  have h5 : millietherChars.isSuffixOf (numChars q ++ weiChars) = false :=
    Bool.eq_false_iff.mpr fun hb =>
      not_suffix_digits_append hds (by decide)
        (fun t _ hv =>
          absurd (show weiChars <:+ millietherChars from ⟨t, hv.symm⟩) (by decide))
        (List.isSuffixOf_iff_suffix.mp hb)
  have h6 : weiChars.isSuffixOf (numChars q ++ weiChars) = true :=
    List.isSuffixOf_iff_suffix.mpr (List.suffix_append _ _)
  simp only [ParseCurrency]
  rw [hfs, h1, h2, h3, h4, h5, h6]
  simpa using stringToBigInt_append 1 q weiChars

/-- Helper: parsing the printed form of q ether. -/
theorem ParseCurrency_ether (q : Nat) :
    ParseCurrency (numChars q ++ [' '] ++ etherChars)
      = some (q * 1000000000000000000) := by
  have hds : ∀ c ∈ numChars q, isDigitChar c = true := fun c hc => (numChars_props q c hc).1
  have hfs : formatString (numChars q ++ [' '] ++ etherChars) = numChars q ++ etherChars := by
    rw [List.append_assoc, formatString_append, formatString_numChars]
    exact congrArg (fun x => numChars q ++ x) (by decide)
  have h1 : kweiChars.isSuffixOf (numChars q ++ etherChars) = false :=
    Bool.eq_false_iff.mpr fun hb =>
      not_suffix_digits_append hds (by decide)
        (fun t _ hv =>
          absurd (show etherChars <:+ kweiChars from ⟨t, hv.symm⟩) (by decide))
        (List.isSuffixOf_iff_suffix.mp hb)
  have h2 : mweiChars.isSuffixOf (numChars q ++ etherChars) = false :=
    Bool.eq_false_iff.mpr fun hb =>
      not_suffix_digits_append hds (by decide)
        (fun t _ hv =>
          absurd (show etherChars <:+ mweiChars from ⟨t, hv.symm⟩) (by decide))
        (List.isSuffixOf_iff_suffix.mp hb)
  have h3 : gweiChars.isSuffixOf (numChars q ++ etherChars) = false :=
    Bool.eq_false_iff.mpr fun hb =>
      not_suffix_digits_append hds (by decide)
        (fun t _ hv =>
          absurd (show etherChars <:+ gweiChars from ⟨t, hv.symm⟩) (by decide))
        (List.isSuffixOf_iff_suffix.mp hb)
  have h4 : microetherChars.isSuffixOf (numChars q ++ etherChars) = false :=
    Bool.eq_false_iff.mpr fun hb =>
      not_suffix_digits_append hds (by decide)
        (fun t _ hv => by
          have h7 : t = ['m', 'i', 'c', 'r', 'o'] :=
            List.append_cancel_right (by rw [← hv]; rfl)
          exact ⟨'m', by simp [h7], by decide⟩)
        (List.isSuffixOf_iff_suffix.mp hb)
  have h5 : millietherChars.isSuffixOf (numChars q ++ etherChars) = false :=
    Bool.eq_false_iff.mpr fun hb =>
      not_suffix_digits_append hds (by decide)
        (fun t _ hv => by
          have h7 : t = ['m', 'i', 'l', 'l', 'i'] :=
            List.append_cancel_right (by rw [← hv]; rfl)
          exact ⟨'m', by simp [h7], by decide⟩)
        (List.isSuffixOf_iff_suffix.mp hb)
  have h6 : weiChars.isSuffixOf (numChars q ++ etherChars) = false :=
    Bool.eq_false_iff.mpr fun hb =>
      not_suffix_digits_append hds (by decide)
        (fun t _ hv =>
          absurd (show etherChars <:+ weiChars from ⟨t, hv.symm⟩) (by decide))
        (List.isSuffixOf_iff_suffix.mp hb)
  have h8 : etherChars.isSuffixOf (numChars q ++ etherChars) = true :=
    List.isSuffixOf_iff_suffix.mpr (List.suffix_append _ _)
  simp only [ParseCurrency]
  rw [hfs, h1, h2, h3, h4, h5, h6, h8]
  simp
  exact stringToBigInt_append 1000000000000000000 q etherChars

/-- Helper: reparsing the formatted form of any fund recovers the fund. -/
theorem ParseCurrency_FormatCurrency (v : Nat) :
    ParseCurrency (FormatCurrency v []) = some v := by
  unfold FormatCurrency
  split_ifs with h0 h18 h15 h12 h9 h6 h3
  · subst h0
    simpa using ParseCurrency_wei 0
  · rw [List.append_nil, ParseCurrency_ether,
      Nat.div_mul_cancel (Nat.dvd_iff_mod_eq_zero.mpr h18)]
  · rw [List.append_nil, ParseCurrency_milliether,
      Nat.div_mul_cancel (Nat.dvd_iff_mod_eq_zero.mpr h15)]
  · rw [List.append_nil, ParseCurrency_microether,
      Nat.div_mul_cancel (Nat.dvd_iff_mod_eq_zero.mpr h12)]
  · rw [List.append_nil, ParseCurrency_gwei,
      Nat.div_mul_cancel (Nat.dvd_iff_mod_eq_zero.mpr h9)]
  · rw [List.append_nil, ParseCurrency_mwei,
      Nat.div_mul_cancel (Nat.dvd_iff_mod_eq_zero.mpr h6)]
  · rw [List.append_nil, ParseCurrency_kwei,
      Nat.div_mul_cancel (Nat.dvd_iff_mod_eq_zero.mpr h3)]
  · rw [List.append_nil, ParseCurrency_wei, Nat.mul_one]

/-- Claim C9: for every string s accepted by ParseCurrency,
FormatCurrency(ParseCurrency(s)) is again accepted by ParseCurrency and
parses back to the same value, whichever currency unit FormatCurrency
selects. -/
theorem ParseCurrency_roundtrip (s : List Char) (v : Nat)
    (h : ParseCurrency s = some v) :
    (ParseCurrency (FormatCurrency v [])).isSome = true ∧
    ParseCurrency (FormatCurrency v []) = ParseCurrency s := by
  rw [ParseCurrency_FormatCurrency v, h]
  exact ⟨rfl, rfl⟩

/-- Claim C9 witness: the accepted input "5 Gwei" parses to 5000000000 wei,
and formatting that value and reparsing gives the same result. -/
theorem ParseCurrency_roundtrip_witness :
    (ParseCurrency (FormatCurrency 5000000000 [])).isSome = true ∧
    ParseCurrency (FormatCurrency 5000000000 []) = ParseCurrency sampleCurrencyInput :=
  ParseCurrency_roundtrip sampleCurrencyInput 5000000000 (by decide)

end unit

end Godx
